import Mathlib

/-!
Verification of the timesheet ingestion and aggregation engine.

This file gives a shallow embedding, in Lean 4, of the core logic of the
repository: field coercion (`parseDate`, `parseNumber`, `parseString`),
column detection (`detectColumns`), content hashing (`generateRowHash`),
batch deduplication, the caller-owned store (`addWorkItems`), and the
aggregation utilities (`calculateTotals`, `aggregateByWorkType`), together
with theorems settling the specification claims about them.

Modelling conventions:
- JavaScript cell values are modelled by `JSValue` (null, undefined, string,
  number, boolean).  Numbers are modelled as exact rationals `ℚ`; IEEE-754
  rounding is not modelled (none of the verified properties hinge on it, and
  the values exercised are exactly representable).  `NaN` as an input value
  is not modelled.
- JavaScript `Date` semantics follow ECMA-262: a time value in milliseconds,
  `DayFromYear` with the spec's floor divisions, the spec's month table, and
  the `toISOString` range limit of 8.64e15 ms.  A `Date` whose time value is
  out of range is invalid, and `toISOString` on it throws; a thrown exception
  is modelled by `Except.error`.
- JavaScript string operations (`trim`, `toLowerCase`, `includes`) are
  modelled character-wise; only BMP text occurs in the data, so UTF-16
  code-unit subtleties do not arise.
-/

deriving instance DecidableEq for Except

/-- A raw JavaScript cell value as seen by the coercion functions. -/
inductive JSValue where
  | null : JSValue
  | undef : JSValue
  | str : String → JSValue
  | num : ℚ → JSValue
  | bool : Bool → JSValue
deriving DecidableEq

/-- JavaScript truthiness on the modelled values (`!value` in the source is
the negation of this).  `NaN` is not modelled. -/
def jsTruthy : JSValue → Bool
  | .null => false
  | .undef => false
  | .str s => s ≠ ""
  | .num q => q ≠ 0
  | .bool b => b

/-- Whitespace characters recognised by the model of `String.prototype.trim`. -/
def jsIsWs (c : Char) : Bool :=
  c = ' ' ∨ c = '\t' ∨ c = '\n' ∨ c = '\r'

/-- Model of `String.prototype.trim`: strip leading and trailing whitespace. -/
def jsTrim (s : String) : String :=
  ⟨((s.toList.dropWhile jsIsWs).reverse.dropWhile jsIsWs).reverse⟩

/-- ASCII lower-casing of one character; characters outside A-Z (in
particular all Japanese text in the data) are unchanged, as in
`String.prototype.toLowerCase` on this character set. -/
def jsLowerChar (c : Char) : Char :=
  if 'A' ≤ c ∧ c ≤ 'Z' then Char.ofNat (c.toNat + 32) else c

/-- Model of `String.prototype.toLowerCase` on the character set in use. -/
def jsToLower (s : String) : String :=
  ⟨s.toList.map jsLowerChar⟩

/-- The decimal digit character for `n % 10`. -/
def digitChar (n : ℕ) : Char :=
  Char.ofNat (48 + n % 10)

/-- Decimal digits of the fractional part of `num / den` (`num < den`),
ending at the first zero remainder; `fuel` bounds the expansion. -/
def fracDigits (fuel num den : ℕ) : List Char :=
  match fuel with
  | 0 => []
  | fuel + 1 =>
    if num = 0 then []
    else digitChar (num * 10 / den) :: fracDigits fuel (num * 10 % den) den

/-- Model of JavaScript number-to-string conversion for numbers whose decimal
expansion terminates (all values arising from the spreadsheet data).  Used by
template-literal interpolation in the hash key. -/
def jsNumToString (q : ℚ) : String :=
  let sign := if q < 0 then "-" else ""
  let n := q.num.natAbs
  let d := q.den
  let intPart := Nat.toDigits 10 (n / d)
  let frac := if n % d = 0 then [] else '.' :: fracDigits 30 (n % d) d
  sign ++ ⟨intPart ++ frac⟩

/-- Model of JavaScript `String(value)` on the modelled values. -/
def jsToString : JSValue → String
  | .null => "null"
  | .undef => "undefined"
  | .str s => s
  | .num q => jsNumToString q
  | .bool b => if b then "true" else "false"

/-- Numeric value of a list of decimal digit characters (most significant
first). -/
def digitsVal (l : List Char) : ℕ :=
  l.foldl (fun a c => 10 * a + (c.toNat - 48)) 0

/-- Exponent part accepted by `parseFloat` after an `e`/`E`: optional sign
and digits; an exponent with no digits contributes `0`. -/
def parseExpPart (l : List Char) : ℤ :=
  let (sign, l1) : ℤ × List Char :=
    match l with
    | '-' :: rest => (-1, rest)
    | '+' :: rest => (1, rest)
    | _ => (1, l)
  let ds := l1.takeWhile Char.isDigit
  if ds.isEmpty then 0 else sign * (digitsVal ds : ℤ)

/-- Model of JavaScript `parseFloat` restricted to finite decimal literals:
longest prefix of the form `[+-]? digits [. digits] [eE [+-]? digits]`;
`none` models `NaN`.  (`Infinity` and hexadecimal forms do not occur in the
data and are not modelled.) -/
def jsParseFloat (s : String) : Option ℚ :=
  let l := s.toList.dropWhile jsIsWs
  let (sign, l1) : ℚ × List Char :=
    match l with
    | '-' :: rest => (-1, rest)
    | '+' :: rest => (1, rest)
    | _ => (1, l)
  let ip := l1.takeWhile Char.isDigit
  let l2 := l1.drop ip.length
  let (fp, l3) : List Char × List Char :=
    match l2 with
    | '.' :: rest => (rest.takeWhile Char.isDigit, rest.drop (rest.takeWhile Char.isDigit).length)
    | _ => ([], l2)
  if ip.isEmpty ∧ fp.isEmpty then none
  else
    let mant : ℚ := (digitsVal ip : ℚ) + (digitsVal fp : ℚ) / (10 : ℚ) ^ fp.length
    let e : ℤ :=
      match l3 with
      | 'e' :: rest => parseExpPart rest
      | 'E' :: rest => parseExpPart rest
      | _ => 0
    some (sign * mant * (10 : ℚ) ^ e)

/-- Embedding of `parseNumber` (src/unnamed/part_003, lines 64-76): empty
string, null and undefined give 0; otherwise the stringified, trimmed value
is fed to `parseFloat`, and `NaN` gives 0. -/
def parseNumber (value : JSValue) : ℚ :=
  if value = .null ∨ value = .undef ∨ value = .str "" then 0
  else
    match jsParseFloat (jsTrim (jsToString value)) with
    | none => 0
    | some q => q

/-- Embedding of `parseString` (src/unnamed/part_003, lines 79-81):
`value ? String(value).trim() : ''`. -/
def parseString (value : JSValue) : String :=
  if jsTruthy value then jsTrim (jsToString value) else ""

/-- Leap-year predicate, as in ECMA-262 `DaysInYear`. -/
def isLeapYear (y : ℤ) : Prop :=
  (y % 4 = 0 ∧ y % 100 ≠ 0) ∨ y % 400 = 0

instance (y : ℤ) : Decidable (isLeapYear y) := by
  unfold isLeapYear; infer_instance

/-- ECMA-262 `DayFromYear`: the day number of 1 January of year `y`
(day 0 is 1970-01-01).  `/` on `ℤ` is floor division here, as in the
ECMA formula. -/
def dayFromYear (y : ℤ) : ℤ :=
  365 * (y - 1970) + (y - 1969) / 4 - (y - 1901) / 100 + (y - 1601) / 400

/-- Number of days in a calendar month (ECMA-262 date-validity table). -/
def daysInMonth (y m : ℤ) : ℤ :=
  if m = 2 then (if isLeapYear y then 29 else 28)
  else if m = 4 ∨ m = 6 ∨ m = 9 ∨ m = 11 then 30
  else 31

/-- Cumulative days before month `m` in a year, with `L = 1` in a leap
year (ECMA-262 month table). -/
def monthOffset (L m : ℤ) : ℤ :=
  if m = 1 then 0
  else if m = 2 then 31
  else if m = 3 then 59 + L
  else if m = 4 then 90 + L
  else if m = 5 then 120 + L
  else if m = 6 then 151 + L
  else if m = 7 then 181 + L
  else if m = 8 then 212 + L
  else if m = 9 then 243 + L
  else if m = 10 then 273 + L
  else if m = 11 then 304 + L
  else 334 + L

/-- Day number of the calendar date `y-m-d` (ECMA-262 `MakeDay` restricted
to in-range month and day). -/
def dayFromCivil (y m d : ℤ) : ℤ :=
  dayFromYear y + monthOffset (if isLeapYear y then 1 else 0) m + d - 1

/-- Binary search for ECMA-262 `YearFromTime`: the largest year `y` with
`dayFromYear y ≤ dy`, within a bracket `[lo, hi)` and a fuel bound. -/
def yearSearch (dy : ℤ) : ℤ → ℤ → ℕ → ℤ
  | lo, _, 0 => lo
  | lo, hi, fuel + 1 =>
    if hi - lo ≤ 1 then lo
    else
      let mid := (lo + hi) / 2
      if dayFromYear mid ≤ dy then yearSearch dy mid hi fuel
      else yearSearch dy lo mid fuel

/-- ECMA-262 `YearFromTime` at the granularity of day numbers; the search
bracket covers every day number a valid time value can produce. -/
def yearFromDay (dy : ℤ) : ℤ :=
  yearSearch dy (-1000000) 1000001 64

/-- ECMA-262 `MonthFromTime` and `DateFromTime` on a day-within-year `w`
with leap flag `L`: the (month, day) pair read off the spec's piecewise
table. -/
def monthDayFromDayWithinYear (L w : ℤ) : ℤ × ℤ :=
  if w < 31 then (1, w + 1)
  else if w < 59 + L then (2, w - 30)
  else if w < 90 + L then (3, w - 58 - L)
  else if w < 120 + L then (4, w - 89 - L)
  else if w < 151 + L then (5, w - 119 - L)
  else if w < 181 + L then (6, w - 150 - L)
  else if w < 212 + L then (7, w - 180 - L)
  else if w < 243 + L then (8, w - 211 - L)
  else if w < 273 + L then (9, w - 242 - L)
  else if w < 304 + L then (10, w - 272 - L)
  else if w < 334 + L then (11, w - 303 - L)
  else (12, w - 333 - L)

/-- Calendar date of a day number: ECMA-262 `YearFromTime`,
`MonthFromTime` and `DateFromTime` combined. -/
def civilFromDay (dy : ℤ) : ℤ × ℤ × ℤ :=
  let y := yearFromDay dy
  let L : ℤ := if isLeapYear y then 1 else 0
  let md := monthDayFromDayWithinYear L (dy - dayFromYear y)
  (y, md.1, md.2)

/-- Fixed-width decimal rendering of `n`, `w` digits, most significant
first. -/
def padNat (w n : ℕ) : List Char :=
  (List.range w).reverse.map (fun i => digitChar (n / 10 ^ i))

/-- The `YYYY-MM-DD` rendering used by `toISOString` for years 0-9999. -/
def isoYMD (y m d : ℤ) : String :=
  ⟨padNat 4 y.toNat⟩ ++ "-" ++ ⟨padNat 2 m.toNat⟩ ++ "-" ++ ⟨padNat 2 d.toNat⟩

/-- Date part of ECMA-262 `Date.prototype.toISOString` on a (valid) time
value `tv` in milliseconds: the source always discards the time part with
`.split('T')[0]`.  Years outside 0-9999 use the expanded form with an
explicit sign and six year digits. -/
def toISODateString (tv : ℤ) : String :=
  let dy := tv / 86400000
  let c := civilFromDay dy
  let y := c.1
  if 0 ≤ y ∧ y ≤ 9999 then isoYMD y c.2.1 c.2.2
  else
    (if y < 0 then "-" else "+") ++ ⟨padNat 6 y.natAbs⟩ ++ "-" ++
      ⟨padNat 2 c.2.1.toNat⟩ ++ "-" ++ ⟨padNat 2 c.2.2.toNat⟩

/-- Truncation toward zero, as in ECMA-262 `ToIntegerOrInfinity`. -/
def ratTrunc (q : ℚ) : ℤ :=
  if 0 ≤ q then ⌊q⌋ else -⌊-q⌋

/-- Shape test for the source's Excel-serial regex `^\d+\.?\d*$`. -/
def serialShape (l : List Char) : Bool :=
  let ds := l.takeWhile Char.isDigit
  !ds.isEmpty &&
    (match l.drop ds.length with
     | [] => true
     | '.' :: rest => rest.all Char.isDigit
     | _ => false)

/-- Model of `new Date(str).getTime()` for the date-only ISO forms
`YYYY-MM` and `YYYY-MM-DD` of the ECMA-262 Date Time String Format, the
only general-date-parsing forms this data can reach; `none` models `NaN`
(an unrecognised or out-of-range date).  Implementation-specific non-ISO
formats are not modelled. -/
def jsParseDateString (l : List Char) : Option ℤ :=
  match l with
  | [y1, y2, y3, y4, '-', m1, m2] =>
    if [y1, y2, y3, y4, m1, m2].all Char.isDigit then
      let y : ℤ := digitsVal [y1, y2, y3, y4]
      let m : ℤ := digitsVal [m1, m2]
      if 1 ≤ m ∧ m ≤ 12 then some (86400000 * dayFromCivil y m 1) else none
    else none
  | [y1, y2, y3, y4, '-', m1, m2, '-', d1, d2] =>
    if [y1, y2, y3, y4, m1, m2, d1, d2].all Char.isDigit then
      let y : ℤ := digitsVal [y1, y2, y3, y4]
      let m : ℤ := digitsVal [m1, m2]
      let d : ℤ := digitsVal [d1, d2]
      if 1 ≤ m ∧ m ≤ 12 ∧ 1 ≤ d ∧ d ≤ daysInMonth y m then
        some (86400000 * dayFromCivil y m d)
      else none
    else none
  | _ => none

/-- Embedding of `parseDate` (src/unnamed/part_003, lines 34-61).  A falsy
input gives `null` (modelled `none`); an 8-digit string is split as
`YYYY-MM-DD` with no validity check; any other digit string is an Excel
serial converted by `(serial - 25569) * 86400 * 1000` milliseconds and
formatted through `toISOString`; otherwise general date parsing is tried
and a parse failure gives `null`.  `Except.error ()` models a thrown
exception: `toISOString` throws a `RangeError` when the serial produces an
invalid `Date` (absolute time value above 8.64e15 ms), and the source has
no handler for it. -/
def parseDate (value : JSValue) : Except Unit (Option String) :=
  if ¬ jsTruthy value then .ok none
  else
    let str := jsTrim (jsToString value)
    let l := str.toList
    if l.length = 8 ∧ l.all Char.isDigit then
      .ok (some (⟨l.take 4⟩ ++ "-" ++ ⟨(l.drop 4).take 2⟩ ++ "-" ++ ⟨l.drop 6⟩))
    else if serialShape l then
      let serial := (jsParseFloat str).getD 0
      let ms := (serial - 25569) * 86400 * 1000
      if 8640000000000000 < |ms| then .error ()
      else .ok (some (toISODateString (ratTrunc ms)))
    else
      match jsParseDateString l with
      | none => .ok none
      | some tv => .ok (some (toISODateString tv))

/-- One reported work entry (the `WorkItem` interface of src/unnamed/part_000). -/
structure WorkItem where
  id : String
  workDate : String
  contractorId : String
  contractorName : String
  reporter : String
  headcount : ℚ
  employmentCode : String
  projectId : String
  projectCode : String
  subareaCode : String
  subworkCode : String
  inHours : ℚ
  outHours : ℚ
  totalHours : ℚ
  srcHash : String
  createdAt : String
deriving DecidableEq

/-- One taxonomy entry (the `WorkCode` interface of src/unnamed/part_000). -/
structure WorkCode where
  subworkCode : String
  subworkName : String
  majorCode : String
  majorName : String
  note : Option String
  version : String
  updatedAt : String
deriving DecidableEq

/-- UTF-8 encoding of one character, as `TextEncoder.prototype.encode`
produces byte by byte. -/
def utf8EncodeChar (c : Char) : List ℕ :=
  let n := c.toNat
  if n < 128 then [n]
  else if n < 2048 then [192 + n / 64, 128 + n % 64]
  else if n < 65536 then [224 + n / 4096, 128 + n / 64 % 64, 128 + n % 64]
  else [240 + n / 262144, 128 + n / 4096 % 64, 128 + n / 64 % 64, 128 + n % 64]

/-- The standard base64 alphabet character for a 6-bit value. -/
def base64Char (n : ℕ) : Char :=
  if n < 26 then Char.ofNat (65 + n)
  else if n < 52 then Char.ofNat (97 + (n - 26))
  else if n < 62 then Char.ofNat (48 + (n - 52))
  else if n = 62 then '+' else '/'

/-- Base64 encoding of a byte sequence with `=` padding, as `btoa` produces
on a binary string. -/
def base64Encode : List ℕ → List Char
  | [] => []
  | [b1] => [base64Char (b1 / 4), base64Char (b1 % 4 * 16), '=', '=']
  | [b1, b2] => [base64Char (b1 / 4), base64Char (b1 % 4 * 16 + b2 / 16),
      base64Char (b2 % 16 * 4), '=']
  | b1 :: b2 :: b3 :: rest =>
    base64Char (b1 / 4) :: base64Char (b1 % 4 * 16 + b2 / 16) ::
      base64Char (b2 % 16 * 4 + b3 / 64) :: base64Char (b3 % 64) ::
      base64Encode rest

/-- The characters kept by the source's `replace(/[^a-zA-Z0-9]/g, '')`. -/
def isAsciiAlnum (c : Char) : Bool :=
  ('a' ≤ c ∧ c ≤ 'z') ∨ ('A' ≤ c ∧ c ≤ 'Z') ∨ ('0' ≤ c ∧ c ≤ '9')

/-- The underscore-joined key of the significant fields, as built by the
template literal in `generateRowHash` (src/unnamed/part_003, line 251). -/
def hashKey (item : WorkItem) : String :=
  item.workDate ++ "_" ++ item.contractorName ++ "_" ++ item.projectCode ++ "_" ++
    item.subworkCode ++ "_" ++ item.subareaCode ++ "_" ++ item.reporter ++ "_" ++
    jsNumToString item.inHours ++ "_" ++ jsNumToString item.outHours

/-- Embedding of `generateRowHash` (src/unnamed/part_003, lines 250-275),
primary path: UTF-8 encode the key, base64 it (`btoa` over the byte string),
and strip every non-alphanumeric character.  The `catch` fallback hash is
unreachable in an environment providing `TextEncoder` and `btoa` and is not
modelled. -/
def generateRowHash (item : WorkItem) : String :=
  let key := hashKey item
  let data := key.toList.flatMap utf8EncodeChar
  ⟨(base64Encode data).filter isAsciiAlnum⟩

/-- One step of the duplicate check loop in `handleFileUpload`
(src/src/pages/Import.tsx, lines 83-90): state is (hash set, unique list,
duplicate list). -/
def dedupStep (st : List String × List WorkItem × List WorkItem) (item : WorkItem) :
    List String × List WorkItem × List WorkItem :=
  let (hashSet, uniqueItems, duplicates) := st
  if item.srcHash ∈ hashSet then (hashSet, uniqueItems, duplicates ++ [item])
  else (item.srcHash :: hashSet, uniqueItems ++ [item], duplicates)

/-- Embedding of the duplicate check in `handleFileUpload`
(src/src/pages/Import.tsx, lines 78-90): partition a hashed batch into
(unique, duplicates). -/
def dedupItems (items : List WorkItem) : List WorkItem × List WorkItem :=
  let r := items.foldl dedupStep ([], [], [])
  (r.2.1, r.2.2)

/-- Embedding of `addWorkItems` of the data context
(src/unnamed/part_000, lines 165-173): append the incoming items whose
`srcHash` is not already present in the retained store. -/
def addWorkItems (prev items : List WorkItem) : List WorkItem :=
  let existingHashes := prev.map WorkItem.srcHash
  prev ++ items.filter (fun item => item.srcHash ∉ existingHashes)

/-- Result record of `calculateTotals`. -/
structure Totals where
  totalInHours : ℚ
  totalOutHours : ℚ
  totalHours : ℚ
  overtimeRatio : ℚ
deriving DecidableEq

/-- Rounding to one decimal place, as `Number(x.toFixed(1))`: nearest with
ties toward the larger value, which is `round` (half up) at one decimal. -/
def round1 (q : ℚ) : ℚ :=
  (round (q * 10) : ℤ) / 10

/-- Embedding of `calculateTotals` (src/src/utils/dataAggregation.ts,
lines 99-111). -/
def calculateTotals (workItems : List WorkItem) : Totals :=
  let totalInHours := workItems.foldl (fun sum item => sum + item.inHours) (0 : ℚ)
  let totalOutHours := workItems.foldl (fun sum item => sum + item.outHours) (0 : ℚ)
  let totalHours := totalInHours + totalOutHours
  let overtimeRatio := if 0 < totalHours then totalOutHours / totalHours * 100 else 0
  ⟨totalInHours, totalOutHours, totalHours, round1 overtimeRatio⟩

/-- One output row of `aggregateByWorkType`. -/
structure WorkTypeData where
  name : String
  regularHours : ℚ
  overtimeHours : ℚ
  totalHours : ℚ
deriving DecidableEq

/-- One accumulator entry of the first grouping pass of
`aggregateByWorkType`. -/
structure HourGroup where
  projectCode : String
  subworkCode : String
  regularHours : ℚ
  overtimeHours : ℚ
  totalHours : ℚ
deriving DecidableEq

/-- The composite grouping key, the template literal
`projectCode_subworkCode` of src/src/utils/dataAggregation.ts line 37. -/
def groupKey (item : WorkItem) : String :=
  item.projectCode ++ "_" ++ item.subworkCode

/-- Accumulate one item's hours into a group. -/
def addHours (g : HourGroup) (item : WorkItem) : HourGroup :=
  { g with regularHours := g.regularHours + item.inHours, overtimeHours := g.overtimeHours + item.outHours,
           totalHours := g.totalHours + item.totalHours }

/-- One step of the `reduce` grouping of `aggregateByWorkType`
(src/src/utils/dataAggregation.ts, lines 36-51); the association list keeps
JavaScript object insertion order (the keys, containing `_`, are never
array indices). -/
def groupStep (acc : List (String × HourGroup)) (item : WorkItem) :
    List (String × HourGroup) :=
  if groupKey item ∈ acc.map Prod.fst then
    acc.map (fun e => if e.1 = groupKey item then (e.1, addHours e.2 item) else e)
  else
    acc ++ [(groupKey item, addHours ⟨item.projectCode, item.subworkCode, 0, 0, 0⟩ item)]

/-- The display-name fallback of `aggregateByWorkType`
(src/src/utils/dataAggregation.ts, lines 57-67): taxonomy major name if
non-empty, else taxonomy sub-work name if non-empty, else the synthesized
`工事projectCode_subworkCode` name. -/
def resolveWorkTypeName (workCodes : List WorkCode) (projectCode subworkCode : String) :
    String :=
  match workCodes.find? (fun code => code.subworkCode = subworkCode) with
  | some workCode =>
    if workCode.majorName ≠ "" then workCode.majorName
    else if workCode.subworkName ≠ "" then workCode.subworkName
    else "工事" ++ projectCode ++ "_" ++ subworkCode
  | none => "工事" ++ projectCode ++ "_" ++ subworkCode

/-- One step of the second pass of `aggregateByWorkType`
(src/src/utils/dataAggregation.ts, lines 56-82): merge groups sharing a
resolved display name, in `Map` insertion order. -/
def mergeStep (workCodes : List WorkCode) (acc : List WorkTypeData) (g : HourGroup) :
    List WorkTypeData :=
  let name := resolveWorkTypeName workCodes g.projectCode g.subworkCode
  if name ∈ acc.map WorkTypeData.name then
    acc.map (fun e =>
      if e.name = name then
        { e with regularHours := e.regularHours + g.regularHours, overtimeHours := e.overtimeHours + g.overtimeHours, totalHours := e.totalHours + g.totalHours }
      else e)
  else
    acc ++ [⟨name, g.regularHours, g.overtimeHours, g.totalHours⟩]

/-- Embedding of `aggregateByWorkType` (src/src/utils/dataAggregation.ts,
lines 30-85). -/
def aggregateByWorkType (workItems : List WorkItem) (workCodes : List WorkCode) :
    List WorkTypeData :=
  if workItems.length = 0 then []
  else ((workItems.foldl groupStep []).map Prod.snd).foldl (mergeStep workCodes) []

/-- Variant of the first grouping pass written from the claim's words:
records are grouped by the pair (`projectCode`, `subworkCode`) itself
rather than by the underscore-joined key string. -/
def specGroupStep (acc : List ((String × String) × HourGroup)) (item : WorkItem) :
    List ((String × String) × HourGroup) :=
  if (item.projectCode, item.subworkCode) ∈ acc.map Prod.fst then
    acc.map (fun e =>
      if e.1 = (item.projectCode, item.subworkCode) then (e.1, addHours e.2 item) else e)
  else
    acc ++ [((item.projectCode, item.subworkCode),
      addHours ⟨item.projectCode, item.subworkCode, 0, 0, 0⟩ item)]

/-- By-category aggregation as the claim describes it: group by the
composite key as a pair, resolve display names, merge by resolved name.
Stated from the spec's words, for comparison with `aggregateByWorkType`. -/
def specAggregateByWorkType (workItems : List WorkItem) (workCodes : List WorkCode) :
    List WorkTypeData :=
  if workItems.length = 0 then []
  else ((workItems.foldl specGroupStep []).map Prod.snd).foldl (mergeStep workCodes) []

/-- One undefined-code statistic (the `UndefinedCode` interface of
src/unnamed/part_000, lines 88-92). -/
structure UndefinedCode where
  subworkCode : String
  count : ℕ
  firstSeen : String
deriving DecidableEq

/-- Embedding of the undefined-code filter in `handleFileUpload`
(src/src/pages/Import.tsx, lines 92-96): records with a truthy (non-empty)
`subworkCode` not present in the taxonomy snapshot. -/
def undefinedItems (uniqueItems : List WorkItem) (workCodes : List WorkCode) :
    List WorkItem :=
  let definedCodes := workCodes.map WorkCode.subworkCode
  uniqueItems.filter (fun item => item.subworkCode ≠ "" ∧ item.subworkCode ∉ definedCodes)

/-- Earliest of a list of normalized date strings (lexicographic order
coincides with chronological order on them); empty list gives "". -/
def minDate : List String → String
  | [] => ""
  | d :: ds => ds.foldl min d

/-- Modelled from the spec: the grouping of undefined-code occurrences into
`UndefinedCodeStat` entries ("group by code, count occurrences, record the
earliest `workDate` seen as `firstSeen`").  The repository declares the
`UndefinedCode` shape and detects the undefined records (the
`undefinedItems` filter above) but contains no implementation of this
grouping, so it is modelled from the spec's words on top of the source's
filter. -/
def undefinedCodeStats (uniqueItems : List WorkItem) (workCodes : List WorkCode) :
    List UndefinedCode :=
  let und := undefinedItems uniqueItems workCodes
  ((und.map WorkItem.subworkCode).dedup).map (fun c =>
    let occ := und.filter (fun item => item.subworkCode = c)
    ⟨c, occ.length, minDate (occ.map WorkItem.workDate)⟩)

/-- The `COLUMN_CANDIDATES` table of src/unnamed/part_003, lines 19-31, in
field declaration order. -/
def COLUMN_CANDIDATES : List (String × List String) :=
  [("workDate", ["日付", "日付(YYYYMMDD|ExcelSerial|string)", "work_date", "date", "年月日", "作業日"]),
   ("contractorName", ["業者名", "業者", "contractor", "company", "会社", "企業"]),
   ("reporter", ["報告者名", "報告者", "reporter", "name", "氏名", "担当者"]),
   ("headcount", ["在籍", "人数", "headcount", "count", "人員"]),
   ("employmentCode", ["雇", "雇用区分", "employment", "emp_code", "雇用"]),
   ("projectCode", ["工事番号", "工事番号(Sxxxx)", "project", "project_code", "工事", "プロジェクト"]),
   ("subareaCode", ["小区画", "小区画(code例: B12P/H5P/...)", "subarea", "area", "区画"]),
   ("subworkCode", ["小区分", "小区分(code例: 25K/211/...)", "subwork", "work_code", "作業", "工種"]),
   ("inHours", ["規内", "規内(numeric)", "in_hours", "regular", "通常", "定時"]),
   ("outHours", ["規外", "規外(numeric)", "out_hours", "overtime", "残業", "超過"]),
   ("totalHours", ["計", "計(numeric)", "total_hours", "total", "合計", "総計"])]

/-- Model of `String.prototype.includes`: `small` occurs contiguously in
`big`. -/
def containsSub (big small : List Char) : Bool :=
  (List.range (big.length + 1)).any (fun i => (big.drop i).take small.length == small)

/-- The per-header match test of `detectColumns` (src/unnamed/part_003,
lines 92-102): exact match, containment either way, or every character of
the candidate occurring somewhere in the header. -/
def headerMatches (candidate header : String) : Bool :=
  let headerLower := (jsTrim (jsToLower header)).toList
  let candidateLower := (jsTrim (jsToLower candidate)).toList
  headerLower == candidateLower ||
    containsSub headerLower candidateLower ||
    containsSub candidateLower headerLower ||
    candidateLower.all (fun c => headerLower.contains c)

/-- First matching header for a candidate list: candidates in priority
order, and for each candidate the first matching header (`Array.find`),
stopping at the first success (the `break`). -/
def findHeaderFor (candidates validHeaders : List String) : Option String :=
  match candidates with
  | [] => none
  | c :: rest =>
    match validHeaders.find? (fun h => headerMatches c h) with
    | some h => some h
    | none => findHeaderFor rest validHeaders

/-- Embedding of `detectColumns` (src/unnamed/part_003, lines 84-111) as an
association list in field declaration order; empty header cells (the model
of null/undefined cells) are excluded up front. -/
def detectColumns (headers : List String) : List (String × String) :=
  let validHeaders := headers.filter (fun h => h ≠ "")
  COLUMN_CANDIDATES.foldl
    (fun mapping kc =>
      match findHeaderFor kc.2 validHeaders with
      | some h => mapping ++ [(kc.1, h)]
      | none => mapping)
    []

/-- Lookup of a canonical field in a detected column mapping. -/
def lookupField (mapping : List (String × String)) (key : String) : Option String :=
  (mapping.find? (fun e => e.1 = key)).map Prod.snd

/-- Structurally recursive form of the duplicate-check loop, used to reason
about `dedupItems`; returns (final hash set, unique list, duplicate list). -/
def dedupGo (seen : List String) : List WorkItem → List String × List WorkItem × List WorkItem
  | [] => (seen, [], [])
  | x :: xs =>
    if x.srcHash ∈ seen then
      let r := dedupGo seen xs
      (r.1, r.2.1, x :: r.2.2)
    else
      let r := dedupGo (x.srcHash :: seen) xs
      (r.1, x :: r.2.1, r.2.2)

/-- Rendering of a pair-keyed grouping entry to a string-keyed one, the
refinement map between `specGroupStep` and `groupStep`. -/
def renderKey (e : (String × String) × HourGroup) : String × HourGroup :=
  (e.1.1 ++ "_" ++ e.1.2, e.2)

/-- A record as built by the record builder for the 2025-01-15 test row. -/
def sampleItem : WorkItem :=
  { id := "work_1", workDate := "2025-01-15", contractorId := "contractor_㈲三和工業",
    contractorName := "㈲三和工業", reporter := "田中太郎", headcount := 5,
    employmentCode := "正社員", projectId := "project_S6290", projectCode := "S6290",
    subareaCode := "B12P", subworkCode := "211", inHours := 8, outHours := 3 / 2,
    totalHours := 19 / 2, srcHash := "", createdAt := "2025-01-15T00:00:00.000Z" }

/-- The same significant fields as `sampleItem` with different metadata
(id, creation time, headcount, employment code, derived ids). -/
def sampleItemMeta : WorkItem :=
  { sampleItem with
    id := "work_2", headcount := 3, employmentCode := "派遣",
    contractorId := "contractor_other", projectId := "project_other",
    createdAt := "2025-02-01T09:30:00.000Z" }

/-- First record of the underscore collision pair: contractor `a_b`,
project `c`. -/
def collisionItemA : WorkItem :=
  { id := "1", workDate := "", contractorId := "", contractorName := "a_b",
    reporter := "", headcount := 0, employmentCode := "", projectId := "",
    projectCode := "c", subareaCode := "", subworkCode := "", inHours := 0,
    outHours := 0, totalHours := 0, srcHash := "", createdAt := "" }

/-- Second record of the underscore collision pair: contractor `a`,
project `b_c`; its joined hash key coincides with `collisionItemA`'s. -/
def collisionItemB : WorkItem :=
  { collisionItemA with contractorName := "a", projectCode := "b_c" }

/-- A stored item carrying a fixed content hash. -/
def dupHashItem : WorkItem :=
  { sampleItem with srcHash := "h1" }

/-- The two-record aggregation example: hours 8.0/1.5 and 7.5/0.5, two
sub-work codes resolving to the single major-category name 組立. -/
def aggExampleItems : List WorkItem :=
  [{ sampleItem with srcHash := "hA" },
   { sampleItem with
     id := "work_2", workDate := "2025-01-16", reporter := "佐藤花子",
     subworkCode := "212", inHours := 15 / 2, outHours := 1 / 2, totalHours := 8,
     srcHash := "hB" }]

/-- Taxonomy for the aggregation example: codes 211 and 212 both under
major category 組立. -/
def aggExampleCodes : List WorkCode :=
  [{ subworkCode := "211", subworkName := "配材作業", majorCode := "110",
     majorName := "組立", note := some "材料の準備作業", version := "1.0",
     updatedAt := "2025-01-15T00:00:00.000Z" },
   { subworkCode := "212", subworkName := "組立作業", majorCode := "110",
     majorName := "組立", note := some "部品の組み立て", version := "1.0",
     updatedAt := "2025-01-15T00:00:00.000Z" }]

/-- Items whose distinct (projectCode, subworkCode) pairs produce the same
underscore-joined composite key `A_B_C`. -/
def aggCollisionItems : List WorkItem :=
  [{ collisionItemA with
     contractorName := "c", projectCode := "A_B", subworkCode := "C",
     inHours := 1, totalHours := 1 },
   { collisionItemA with
     id := "2", contractorName := "c", projectCode := "A",
     subworkCode := "B_C", inHours := 1, totalHours := 1 }]

/-- Taxonomy giving code `B_C` a major-category name, so pair-keyed
grouping and string-keyed grouping resolve different display names. -/
def aggCollisionCodes : List WorkCode :=
  [{ subworkCode := "B_C", subworkName := "sub", majorCode := "110", majorName := "X",
     note := none, version := "1.0", updatedAt := "t" }]

/-- The second totals example: one record with 3 regular and 1 overtime
hours. -/
def totalsItemsB : List WorkItem :=
  [{ sampleItem with inHours := 3, outHours := 1, totalHours := 4 }]

/-- A unique batch containing one record with an empty sub-work code. -/
def emptyCodeBatch : List WorkItem :=
  [{ sampleItem with subworkCode := "", workDate := "2025-01-01" }]

/-! Theorems.  General lemmas first, then one theorem per claim (with
witnesses and counterexamples where applicable). -/

theorem foldl_add_map (f : WorkItem → ℚ) :
    ∀ (l : List WorkItem) (a : ℚ), l.foldl (fun s i => s + f i) a = a + (l.map f).sum := by
  intro l
  induction l with
  | nil => simp
  | cons x xs ih => intro a; simp [ih, add_assoc]

theorem round1_zero : round1 0 = 0 := by
  norm_num [round1]

unseal Rat.mul Rat.inv Rat.add Rat.sub Rat.ofScientific in
/-- C7: the coercion functions degrade to safe defaults — `parseNumber`
gives 0 on empty string, null, undefined and the non-numeric "abc";
`parseString` gives "" on null and empty input; `parseDate` gives the
no-value sentinel on empty, null, undefined and unparseable input.  But
they are not exception-free: the digit string "999999999" takes
`parseDate`'s Excel-serial branch, builds a `Date` whose time value
exceeds the 8.64e15 ms range, and `toISOString` throws a `RangeError`
(modelled `Except.error ()`), which the source does not catch.  The spec's
"never throws" policy is the evident intent, so this is a code bug. -/
theorem coercion_safe_defaults_and_serial_throw :
    parseNumber (.str "") = 0 ∧ parseNumber .null = 0 ∧ parseNumber .undef = 0 ∧
    parseNumber (.str "abc") = 0 ∧
    parseString .null = "" ∧ parseString (.str "") = "" ∧ parseString .undef = "" ∧
    parseDate .null = .ok none ∧ parseDate .undef = .ok none ∧
    parseDate (.str "") = .ok none ∧ parseDate (.str "abc") = .ok none ∧
    parseDate (.str "999999999") = .error () := by
  decide

/-- C10: `parseString` returns the empty string for every falsy input, not
only null and empty string: the number 0 and the boolean false also coerce
to "" (not to their string representations "0" and "false"), so a numeric
0 cell is indistinguishable from a missing value after coercion. -/
theorem parseString_empty_on_falsy :
    (∀ v : JSValue, jsTruthy v = false → parseString v = "") ∧
    parseString (.num 0) = "" ∧ parseString (.bool false) = "" ∧
    parseString (.num 0) = parseString (.str "") ∧
    jsNumToString 0 = "0" ∧ parseString (.num 0) ≠ jsNumToString 0 := by
  refine ⟨fun v h => by simp [parseString, h], by decide, by decide, by decide, by decide, by decide⟩

/-- Witness for `parseString_empty_on_falsy` at the falsy input `0`. -/
theorem parseString_empty_on_falsy_witness :
    jsTruthy (.num 0) = false ∧ parseString (.num 0) = "" :=
  ⟨by decide, parseString_empty_on_falsy.1 (.num 0) (by decide)⟩

unseal Rat.mul Rat.inv Rat.add Rat.sub Rat.ofScientific in
/-- C8 counterexample: `parseDate` output strings of the shape YYYY-MM-DD
are not all fixed points.  The 8-digit branch performs no validity check,
so "99999999" produces "9999-99-99"; feeding that back in reaches general
date parsing, which rejects month 99, giving `null` instead of the input. -/
theorem parseDate_output_not_fixed_point :
    parseDate (.str "99999999") = .ok (some "9999-99-99") ∧
    parseDate (.str "9999-99-99") = .ok none ∧
    (Except.ok (some "9999-99-99") : Except Unit (Option String)) ≠ .ok none := by
  decide

/-- C1 (amended): the content hash is a pure function of exactly the eight
significant fields — two records agreeing on workDate, contractorName,
projectCode, subworkCode, subareaCode, reporter, inHours and outHours hash
identically, whatever their id, createdAt, headcount or employmentCode.
(The converse direction of the original claim is false; see the
counterexample.) -/
theorem generateRowHash_pure_in_significant_fields (r1 r2 : WorkItem)
    (h1 : r1.workDate = r2.workDate) (h2 : r1.contractorName = r2.contractorName)
    (h3 : r1.projectCode = r2.projectCode) (h4 : r1.subworkCode = r2.subworkCode)
    (h5 : r1.subareaCode = r2.subareaCode) (h6 : r1.reporter = r2.reporter)
    (h7 : r1.inHours = r2.inHours) (h8 : r1.outHours = r2.outHours) :
    generateRowHash r1 = generateRowHash r2 := by
  unfold generateRowHash hashKey
  rw [h1, h2, h3, h4, h5, h6, h7, h8]

unseal Rat.mul Rat.inv Rat.add Rat.sub Rat.ofScientific in
/-- Witness for `generateRowHash_pure_in_significant_fields`: two records
sharing significant fields but differing in id, createdAt, headcount and
employmentCode hash identically. -/
theorem generateRowHash_pure_witness :
    generateRowHash sampleItem = generateRowHash sampleItemMeta ∧
    sampleItem.id ≠ sampleItemMeta.id ∧ sampleItem.createdAt ≠ sampleItemMeta.createdAt ∧
    sampleItem.headcount ≠ sampleItemMeta.headcount ∧
    sampleItem.employmentCode ≠ sampleItemMeta.employmentCode :=
  ⟨generateRowHash_pure_in_significant_fields sampleItem sampleItemMeta
      rfl rfl rfl rfl rfl rfl rfl rfl,
    by decide, by decide, by decide, by decide⟩

unseal Rat.mul Rat.inv Rat.add Rat.sub Rat.ofScientific in
/-- C1 counterexample: records differing in a significant field can hash
identically, because the key joins fields with `_` and fields may contain
`_`: contractor `a_b` with project `c` and contractor `a` with project
`b_c` produce the same joined key, hence the same hash. -/
theorem generateRowHash_collision :
    collisionItemA.contractorName ≠ collisionItemB.contractorName ∧
    generateRowHash collisionItemA = generateRowHash collisionItemB := by
  decide

theorem addWorkItems_append (store b : List WorkItem) :
    addWorkItems store b =
      store ++ b.filter (fun item => item.srcHash ∉ store.map WorkItem.srcHash) := rfl

theorem addWorkItems_nodup (store b : List WorkItem)
    (hs : (store.map WorkItem.srcHash).Nodup) (hb : (b.map WorkItem.srcHash).Nodup) :
    ((addWorkItems store b).map WorkItem.srcHash).Nodup := by
  rw [addWorkItems_append, List.map_append, List.nodup_append]
  refine ⟨hs, ?_, ?_⟩
  · exact hb.sublist (List.Sublist.map _ (List.filter_sublist b))
  · intro a ha hb'
    rcases List.mem_map.mp hb' with ⟨x, hx, hxa⟩
    rcases List.mem_filter.mp hx with ⟨_, hpx⟩
    rw [← hxa] at ha
    simp only [decide_eq_true_eq] at hpx
    exact hpx ha

/-- C9 (amended): provided every incoming batch has pairwise-distinct
`srcHash` values (as the import dedup step guarantees), the caller-owned
store keeps pairwise-distinct hashes after any sequence of `addWorkItems`
calls from the empty store; previously stored items are kept unchanged (the
old store is a prefix of the new one), and an incoming item whose hash
already occurs in the store is discarded (never appears among the appended
items).  (Without the per-batch distinctness hypothesis the invariant fails;
see the counterexample.) -/
theorem addWorkItems_store_invariant :
    (∀ batches : List (List WorkItem),
      (∀ b ∈ batches, (b.map WorkItem.srcHash).Nodup) →
      ((batches.foldl addWorkItems []).map WorkItem.srcHash).Nodup) ∧
    (∀ store b : List WorkItem, (addWorkItems store b).take store.length = store) ∧
    (∀ store b : List WorkItem, ∀ x ∈ b, x.srcHash ∈ store.map WorkItem.srcHash →
      x ∉ (addWorkItems store b).drop store.length) := by
  refine ⟨?_, ?_, ?_⟩
  · have main : ∀ (batches : List (List WorkItem)) (store : List WorkItem),
        (store.map WorkItem.srcHash).Nodup →
        (∀ b ∈ batches, (b.map WorkItem.srcHash).Nodup) →
        ((batches.foldl addWorkItems store).map WorkItem.srcHash).Nodup := by
      intro batches
      induction batches with
      | nil => intro store hs _; exact hs
      | cons b bs ih =>
        intro store hs hb
        exact ih (addWorkItems store b)
          (addWorkItems_nodup store b hs (hb b (List.mem_cons_self b bs)))
          (fun c hc => hb c (List.mem_cons_of_mem b hc))
    exact fun batches h => main batches [] (by simp) h
  · intro store b
    rw [addWorkItems_append, List.take_left]
  · intro store b x hx hmem hdrop
    rw [addWorkItems_append, List.drop_left] at hdrop
    rcases List.mem_filter.mp hdrop with ⟨_, hpx⟩
    simp only [decide_eq_true_eq] at hpx
    exact hpx hmem

unseal Rat.mul Rat.inv Rat.add Rat.sub Rat.ofScientific in
/-- Witness for `addWorkItems_store_invariant`: a concrete two-batch
sequence with a repeated hash across batches keeps distinct store hashes,
the first store is a prefix of the second, and the repeated item is not
re-appended. -/
theorem addWorkItems_store_invariant_witness :
    (([[dupHashItem], [dupHashItem, sampleItem]].foldl addWorkItems []).map
      WorkItem.srcHash).Nodup ∧
    (addWorkItems [dupHashItem] [dupHashItem, sampleItem]).take 1 = [dupHashItem] ∧
    dupHashItem ∉ (addWorkItems [dupHashItem] [dupHashItem, sampleItem]).drop 1 :=
  ⟨addWorkItems_store_invariant.1 [[dupHashItem], [dupHashItem, sampleItem]] (by decide),
   addWorkItems_store_invariant.2.1 [dupHashItem] [dupHashItem, sampleItem],
   addWorkItems_store_invariant.2.2 [dupHashItem] [dupHashItem, sampleItem] dupHashItem
     (by decide) (by decide)⟩

unseal Rat.mul Rat.inv Rat.add Rat.sub Rat.ofScientific in
/-- C9 counterexample: a single call whose batch repeats a hash defeats the
invariant — `addWorkItems` only filters against the previous store, so both
copies are retained and the store's hashes are no longer pairwise
distinct. -/
theorem addWorkItems_keeps_batch_internal_duplicates :
    addWorkItems [] [dupHashItem, dupHashItem] = [dupHashItem, dupHashItem] ∧
    ¬ ((addWorkItems [] [dupHashItem, dupHashItem]).map WorkItem.srcHash).Nodup := by
  decide

unseal Rat.mul Rat.inv Rat.add Rat.sub Rat.ofScientific in
/-- C3: `calculateTotals` returns the sums of `inHours` and `outHours`
over the whole collection, their sum as `totalHours`, and the overtime
ratio `100 × out / total` rounded to one decimal when the total is
positive, else 0; on the concrete inputs, hours summing to in 15.5 / out
2.0 give ratio 11.4, in 3 / out 1 give 25.0, and the empty collection
gives all zeros with no division by zero. -/
theorem calculateTotals_spec :
    (∀ items : List WorkItem,
      (calculateTotals items).totalInHours = (items.map WorkItem.inHours).sum ∧
      (calculateTotals items).totalOutHours = (items.map WorkItem.outHours).sum ∧
      (calculateTotals items).totalHours =
        (items.map WorkItem.inHours).sum + (items.map WorkItem.outHours).sum ∧
      (calculateTotals items).overtimeRatio =
        (if 0 < (items.map WorkItem.inHours).sum + (items.map WorkItem.outHours).sum then
          round1 (100 * (items.map WorkItem.outHours).sum /
            ((items.map WorkItem.inHours).sum + (items.map WorkItem.outHours).sum))
        else 0)) ∧
    (calculateTotals aggExampleItems).totalInHours = 15.5 ∧
    (calculateTotals aggExampleItems).totalOutHours = 2 ∧
    (calculateTotals aggExampleItems).totalHours = 17.5 ∧
    (calculateTotals aggExampleItems).overtimeRatio = 11.4 ∧
    (calculateTotals totalsItemsB).overtimeRatio = 25 ∧
    calculateTotals [] = ⟨0, 0, 0, 0⟩ := by
  refine ⟨?_, by decide, by decide, by decide, by decide, by decide, by decide⟩
  intro items
  refine ⟨?_, ?_, ?_, ?_⟩ <;>
    simp only [calculateTotals, foldl_add_map WorkItem.inHours,
      foldl_add_map WorkItem.outHours, zero_add]
  split_ifs with h
  · congr 1
    ring
  · exact round1_zero

theorem foldl_dedupStep : ∀ (l : List WorkItem) (s : List String) (u d : List WorkItem),
    l.foldl dedupStep (s, u, d) =
      ((dedupGo s l).1, u ++ (dedupGo s l).2.1, d ++ (dedupGo s l).2.2) := by
  intro l
  induction l with
  | nil => intro s u d; simp [dedupGo]
  | cons x xs ih =>
    intro s u d
    by_cases h : x.srcHash ∈ s
    · simp [dedupStep, dedupGo, h, ih]
    · simp [dedupStep, dedupGo, h, ih]

theorem dedupItems_eq (items : List WorkItem) :
    dedupItems items = ((dedupGo [] items).2.1, (dedupGo [] items).2.2) := by
  simp [dedupItems, foldl_dedupStep items [] [] []]

theorem dedupGo_length : ∀ (l : List WorkItem) (s : List String),
    (dedupGo s l).2.1.length + (dedupGo s l).2.2.length = l.length := by
  intro l
  induction l with
  | nil => intro s; simp [dedupGo]
  | cons x xs ih =>
    intro s
    by_cases h : x.srcHash ∈ s
    · have := ih s
      simp only [dedupGo, h, ite_true, List.length_cons]
      omega
    · have := ih (x.srcHash :: s)
      simp only [dedupGo, h, ite_false, List.length_cons]
      omega

theorem dedupGo_nodup : ∀ (l : List WorkItem) (s : List String),
    ((dedupGo s l).2.1.map WorkItem.srcHash).Nodup ∧
      ∀ x ∈ (dedupGo s l).2.1, x.srcHash ∉ s := by
  intro l
  induction l with
  | nil => intro s; simp [dedupGo]
  | cons x xs ih =>
    intro s
    by_cases h : x.srcHash ∈ s
    · simpa [dedupGo, h] using ih s
    · have ih' := ih (x.srcHash :: s)
      simp only [dedupGo, h, if_neg, ite_false, List.map_cons, List.nodup_cons]
      refine ⟨⟨?_, ih'.1⟩, ?_⟩
      · intro hmem
        rcases List.mem_map.mp hmem with ⟨y, hy, hyx⟩
        exact (ih'.2 y hy) (by rw [hyx]; exact List.mem_cons_self _ _)
      · intro y hy
        rcases List.mem_cons.mp hy with rfl | hy'
        · exact h
        · intro hys
          exact (ih'.2 y hy') (List.mem_cons_of_mem _ hys)

theorem dedupGo_uniq_filter (h : String) : ∀ (l : List WorkItem) (s : List String),
    (dedupGo s l).2.1.filter (fun x => x.srcHash = h) =
      if h ∈ s then [] else (l.filter (fun x => x.srcHash = h)).take 1 := by
  intro l
  induction l with
  | nil => intro s; simp [dedupGo]
  | cons x xs ih =>
    intro s
    by_cases hmem : x.srcHash ∈ s
    · by_cases hx : x.srcHash = h
      · subst hx
        simp [dedupGo, hmem, ih, List.filter_cons]
      · simp [dedupGo, hmem, ih, List.filter_cons, hx]
    · by_cases hx : x.srcHash = h
      · subst hx
        have hthis := ih (x.srcHash :: s)
        rw [if_pos (List.mem_cons_self _ _)] at hthis
        simp [dedupGo, hmem, List.filter_cons, hthis]
      · have hthis := ih (x.srcHash :: s)
        by_cases hs : h ∈ s
        · rw [if_pos (List.mem_cons_of_mem _ hs)] at hthis
          simp [dedupGo, hmem, List.filter_cons, hx, hthis, hs]
        · have hns : h ∉ x.srcHash :: s := by
            intro hc
            rcases List.mem_cons.mp hc with hc1 | hc1
            · exact hx hc1.symm
            · exact hs hc1
          rw [if_neg hns] at hthis
          simp [dedupGo, hmem, List.filter_cons, hx, hthis, hs]

theorem dedupGo_dups_filter (h : String) : ∀ (l : List WorkItem) (s : List String),
    (dedupGo s l).2.2.filter (fun x => x.srcHash = h) =
      if h ∈ s then l.filter (fun x => x.srcHash = h)
      else (l.filter (fun x => x.srcHash = h)).drop 1 := by
  intro l
  induction l with
  | nil => intro s; simp [dedupGo]
  | cons x xs ih =>
    intro s
    by_cases hmem : x.srcHash ∈ s
    · by_cases hx : x.srcHash = h
      · subst hx
        simp [dedupGo, hmem, ih, List.filter_cons]
      · simp [dedupGo, hmem, ih, List.filter_cons, hx]
    · by_cases hx : x.srcHash = h
      · subst hx
        have hthis := ih (x.srcHash :: s)
        rw [if_pos (List.mem_cons_self _ _)] at hthis
        simp [dedupGo, hmem, List.filter_cons, hthis]
      · have hthis := ih (x.srcHash :: s)
        by_cases hs : h ∈ s
        · rw [if_pos (List.mem_cons_of_mem _ hs)] at hthis
          simp [dedupGo, hmem, List.filter_cons, hx, hthis, hs]
        · have hns : h ∉ x.srcHash :: s := by
            intro hc
            rcases List.mem_cons.mp hc with hc1 | hc1
            · exact hx hc1.symm
            · exact hs hc1
          rw [if_neg hns] at hthis
          simp [dedupGo, hmem, List.filter_cons, hx, hthis, hs]

/-- C2: the duplicate check partitions every hashed batch so that, for
each hash value, the first record bearing it (in input order) goes to the
unique list and every later record with the same hash goes to the
duplicates list; the two parts add up to the batch length and the unique
hashes are pairwise distinct. -/
theorem dedup_partition (items : List WorkItem) :
    (dedupItems items).1.length + (dedupItems items).2.length = items.length ∧
    ((dedupItems items).1.map WorkItem.srcHash).Nodup ∧
    ∀ h : String,
      (dedupItems items).1.filter (fun x => x.srcHash = h) =
        (items.filter (fun x => x.srcHash = h)).take 1 ∧
      (dedupItems items).2.filter (fun x => x.srcHash = h) =
        (items.filter (fun x => x.srcHash = h)).drop 1 := by
  rw [dedupItems_eq]
  refine ⟨dedupGo_length items [], (dedupGo_nodup items []).1, fun h => ⟨?_, ?_⟩⟩
  · simpa using dedupGo_uniq_filter h items []
  · simpa using dedupGo_dups_filter h items []

theorem findHeaderFor_sound : ∀ (cands vh : List String) (h : String),
    findHeaderFor cands vh = some h → h ∈ vh ∧ ∃ c ∈ cands, headerMatches c h = true := by
  intro cands
  induction cands with
  | nil => intro vh h hf; simp [findHeaderFor] at hf
  | cons c rest ih =>
    intro vh h hf
    simp only [findHeaderFor] at hf
    cases hfind : vh.find? (fun x => headerMatches c x) with
    | some hh =>
      rw [hfind] at hf
      cases hf
      exact ⟨List.mem_of_find?_eq_some hfind,
        c, List.mem_cons_self _ _, List.find?_some hfind⟩
    | none =>
      rw [hfind] at hf
      rcases ih vh h hf with ⟨hmem, c', hc', hm⟩
      exact ⟨hmem, c', List.mem_cons_of_mem _ hc', hm⟩

theorem detect_foldl_acc : ∀ (table : List (String × List String)) (vh : List String)
    (acc : List (String × String)),
    ∃ tail,
      table.foldl
        (fun mapping kc =>
          match findHeaderFor kc.2 vh with
          | some h => mapping ++ [(kc.1, h)]
          | none => mapping) acc = acc ++ tail ∧
      ∀ e ∈ tail, ∃ kc ∈ table, e.1 = kc.1 ∧ findHeaderFor kc.2 vh = some e.2 := by
  intro table
  induction table with
  | nil => intro vh acc; exact ⟨[], by simp, by simp⟩
  | cons kc rest ih =>
    intro vh acc
    simp only [List.foldl_cons]
    cases hfind : findHeaderFor kc.2 vh with
    | some h =>
      rcases ih vh (acc ++ [(kc.1, h)]) with ⟨tail, heq, hmem⟩
      refine ⟨(kc.1, h) :: tail, by simpa using heq, ?_⟩
      intro e he
      rcases List.mem_cons.mp he with rfl | he'
      · exact ⟨kc, List.mem_cons_self _ _, rfl, hfind⟩
      · rcases hmem e he' with ⟨kc', hkc', h1, h2⟩
        exact ⟨kc', List.mem_cons_of_mem _ hkc', h1, h2⟩
    | none =>
      rcases ih vh acc with ⟨tail, heq, hmem⟩
      refine ⟨tail, heq, ?_⟩
      intro e he
      rcases hmem e he with ⟨kc', hkc', h1, h2⟩
      exact ⟨kc', List.mem_cons_of_mem _ hkc', h1, h2⟩

theorem detect_foldl_complete : ∀ (table : List (String × List String)) (vh : List String)
    (acc : List (String × String)) (kc : String × List String), kc ∈ table →
    ∀ h, findHeaderFor kc.2 vh = some h →
    (kc.1, h) ∈ table.foldl
      (fun mapping kc =>
        match findHeaderFor kc.2 vh with
        | some h => mapping ++ [(kc.1, h)]
        | none => mapping) acc := by
  intro table
  induction table with
  | nil => intro vh acc kc hkc; simp at hkc
  | cons kc0 rest ih =>
    intro vh acc kc hkc h hfind
    rcases List.mem_cons.mp hkc with rfl | hkc'
    · simp only [List.foldl_cons, hfind]
      rcases detect_foldl_acc rest vh (acc ++ [(kc.1, h)]) with ⟨tail, heq, _⟩
      rw [heq]
      exact List.mem_append_left _ (List.mem_append_right _ (List.mem_singleton.mpr rfl))
    · simp only [List.foldl_cons]
      cases hfind0 : findHeaderFor kc0.2 vh <;> exact ih vh _ kc hkc' h hfind

/-- C6 (amended): each canonical field is matched independently of all
other fields — the field is mapped (in declaration order) to the first
valid header matched by its own candidate list, and headers already
claimed by earlier fields are NOT excluded, so several canonical fields
can map to one header.  Every mapped header is a non-empty member of the
input matched by one of the field's candidates, and a field is mapped
whenever its candidate search succeeds. -/
theorem detectColumns_matches_independently (headers : List String) :
    (∀ e ∈ detectColumns headers, e.2 ∈ headers ∧ e.2 ≠ "" ∧
      ∃ kc ∈ COLUMN_CANDIDATES, e.1 = kc.1 ∧ ∃ c ∈ kc.2, headerMatches c e.2 = true) ∧
    (∀ kc ∈ COLUMN_CANDIDATES, ∀ h,
      findHeaderFor kc.2 (headers.filter (fun s => s ≠ "")) = some h →
      (kc.1, h) ∈ detectColumns headers) := by
  constructor
  · intro e he
    unfold detectColumns at he
    rcases detect_foldl_acc COLUMN_CANDIDATES (headers.filter (fun s => s ≠ "")) []
      with ⟨tail, heq, hmem⟩
    rw [heq] at he
    simp only [List.nil_append] at he
    rcases hmem e he with ⟨kc, hkc, h1, h2⟩
    rcases findHeaderFor_sound kc.2 _ e.2 h2 with ⟨hvh, c, hc, hm⟩
    rcases List.mem_filter.mp hvh with ⟨hh, hne⟩
    refine ⟨hh, by simpa using hne, kc, hkc, h1, c, hc, hm⟩
  · intro kc hkc h hfind
    exact detect_foldl_complete COLUMN_CANDIDATES _ [] kc hkc h hfind

/-- Witness for `detectColumns_matches_independently`: the mapped pair
(`workDate`, 日付) is sound for the single-header input 日付. -/
theorem detectColumns_matches_independently_witness :
    "日付" ∈ ["日付"] ∧ "日付" ≠ "" ∧
      ∃ kc ∈ COLUMN_CANDIDATES, "workDate" = kc.1 ∧
        ∃ c ∈ kc.2, headerMatches c "日付" = true :=
  (detectColumns_matches_independently ["日付"]).1 ("workDate", "日付") (by decide)

/-- C6 counterexample: the header `total_in_hours` is claimed by the
earlier field `inHours` (candidate `in_hours`, containment) and is
nevertheless also mapped to the later field `totalHours` (candidate
`total_hours`, per-character match) — no claimed-header exclusion
exists. -/
theorem detectColumns_header_shared :
    lookupField (detectColumns ["total_in_hours"]) "inHours" = some "total_in_hours" ∧
    lookupField (detectColumns ["total_in_hours"]) "totalHours" = some "total_in_hours" ∧
    "inHours" ≠ "totalHours" := by
  decide

theorem foldl_min_le_init : ∀ (ds : List String) (a : String), ds.foldl min a ≤ a := by
  intro ds
  induction ds with
  | nil => intro a; simp
  | cons d ds ih =>
    intro a
    exact le_trans (ih (min a d)) (min_le_left a d)

theorem foldl_min_le_mem : ∀ (ds : List String) (a x : String), x ∈ ds → ds.foldl min a ≤ x := by
  intro ds
  induction ds with
  | nil => intro a x hx; simp at hx
  | cons d ds ih =>
    intro a x hx
    rcases List.mem_cons.mp hx with rfl | hx'
    · exact le_trans (foldl_min_le_init ds (min a x)) (min_le_right a x)
    · exact ih (min a d) x hx'

theorem foldl_min_mem : ∀ (ds : List String) (a : String), ds.foldl min a ∈ a :: ds := by
  intro ds
  induction ds with
  | nil => intro a; simp
  | cons d ds ih =>
    intro a
    have h := ih (min a d)
    rcases List.mem_cons.mp h with h' | h'
    · rw [List.foldl_cons, h']
      rcases min_choice a d with hm | hm <;> rw [hm]
      · exact List.mem_cons_self _ _
      · exact List.mem_cons_of_mem _ (List.mem_cons_self _ _)
    · exact List.mem_cons_of_mem _ (List.mem_cons_of_mem _ h')

theorem minDate_mem : ∀ (l : List String), l ≠ [] → minDate l ∈ l := by
  intro l hl
  cases l with
  | nil => exact absurd rfl hl
  | cons d ds => exact foldl_min_mem ds d

theorem minDate_le : ∀ (l : List String) (x : String), x ∈ l → minDate l ≤ x := by
  intro l x hx
  cases l with
  | nil => simp at hx
  | cons d ds =>
    rcases List.mem_cons.mp hx with rfl | hx'
    · exact foldl_min_le_init ds x
    · exact foldl_min_le_mem ds d x hx'

theorem undefinedItems_filter_eq (batch : List WorkItem) (codes : List WorkCode)
    (c : String) (hc1 : c ≠ "") (hc2 : c ∉ codes.map WorkCode.subworkCode) :
    (undefinedItems batch codes).filter (fun i => i.subworkCode = c) =
      batch.filter (fun i => i.subworkCode = c) := by
  unfold undefinedItems
  rw [List.filter_filter]
  apply List.filter_congr
  intro i _
  by_cases h : i.subworkCode = c
  · simp [h, hc1, hc2]
  · simp [h]

theorem mem_undefined_code_props (batch : List WorkItem) (codes : List WorkCode)
    (c : String) (hc : c ∈ (undefinedItems batch codes).map WorkItem.subworkCode) :
    c ≠ "" ∧ c ∉ codes.map WorkCode.subworkCode := by
  rcases List.mem_map.mp hc with ⟨i, hi, rfl⟩
  rcases List.mem_filter.mp hi with ⟨_, hp⟩
  simp only [decide_eq_true_eq] at hp
  exact hp

/-- C5 (amended): the undefined-code statistics (grouping modelled from
the spec over the source's detection filter) have one entry per distinct
undefined code, the entry's count is the number of occurrences of that
code in the batch, its firstSeen is the earliest workDate among those
occurrences, and every record with a NON-EMPTY sub-work code absent from
the taxonomy is covered by an entry.  (Records with an empty sub-work
code are skipped by the source's truthiness test even when the taxonomy
has no entry for the empty code; see the counterexample.) -/
theorem undefinedCodeStats_spec (batch : List WorkItem) (codes : List WorkCode) :
    ((undefinedCodeStats batch codes).map UndefinedCode.subworkCode).Nodup ∧
    (∀ s ∈ undefinedCodeStats batch codes,
      s.count = (batch.filter (fun i => i.subworkCode = s.subworkCode)).length ∧
      s.firstSeen ∈ (batch.filter (fun i => i.subworkCode = s.subworkCode)).map
        WorkItem.workDate ∧
      ∀ d ∈ (batch.filter (fun i => i.subworkCode = s.subworkCode)).map WorkItem.workDate,
        s.firstSeen ≤ d) ∧
    (∀ i ∈ batch, i.subworkCode ≠ "" →
      i.subworkCode ∉ codes.map WorkCode.subworkCode →
      ∃ s ∈ undefinedCodeStats batch codes, s.subworkCode = i.subworkCode) := by
  refine ⟨?_, ?_, ?_⟩
  · unfold undefinedCodeStats
    rw [List.map_map]
    have base := ((undefinedItems batch codes).map WorkItem.subworkCode).nodup_dedup
    revert base
    generalize ((undefinedItems batch codes).map WorkItem.subworkCode).dedup = l
    intro base
    induction l with
    | nil => simp
    | cons c cs ih =>
      simp only [List.map_cons, List.nodup_cons] at base ⊢
      refine ⟨?_, ih base.2⟩
      intro hmem
      rcases List.mem_map.mp hmem with ⟨c1, hc1, he⟩
      exact base.1 ((show c1 = c from he) ▸ hc1)
  · intro s hs
    unfold undefinedCodeStats at hs
    rcases List.mem_map.mp hs with ⟨c, hc, rfl⟩
    have hc' : c ∈ (undefinedItems batch codes).map WorkItem.subworkCode :=
      List.mem_dedup.mp hc
    rcases mem_undefined_code_props batch codes c hc' with ⟨h1, h2⟩
    have hfe := undefinedItems_filter_eq batch codes c h1 h2
    have hne : (undefinedItems batch codes).filter (fun i => i.subworkCode = c) ≠ [] := by
      rcases List.mem_map.mp hc' with ⟨i, hi, rfl⟩
      intro hnil
      have : i ∈ (undefinedItems batch codes).filter
          (fun j => j.subworkCode = i.subworkCode) :=
        List.mem_filter.mpr ⟨hi, by simp⟩
      rw [hnil] at this
      simp at this
    refine ⟨by rw [← hfe], ?_, ?_⟩
    · rw [← hfe]
      apply minDate_mem
      intro hmapnil
      exact hne (List.map_eq_nil_iff.mp hmapnil)
    · intro d hd
      rw [← hfe] at hd
      exact minDate_le _ d hd
  · intro i hi h1 h2
    have hiu : i ∈ undefinedItems batch codes :=
      List.mem_filter.mpr ⟨hi, by simp [h1, h2]⟩
    have hc : i.subworkCode ∈
        ((undefinedItems batch codes).map WorkItem.subworkCode).dedup :=
      List.mem_dedup.mpr (List.mem_map.mpr ⟨i, hiu, rfl⟩)
    refine ⟨⟨i.subworkCode,
        ((undefinedItems batch codes).filter
          (fun j => j.subworkCode = i.subworkCode)).length,
        minDate (((undefinedItems batch codes).filter
          (fun j => j.subworkCode = i.subworkCode)).map WorkItem.workDate)⟩,
      ?_, rfl⟩
    unfold undefinedCodeStats
    exact List.mem_map.mpr ⟨i.subworkCode, hc, rfl⟩

unseal Rat.mul Rat.inv Rat.add Rat.sub Rat.ofScientific in
/-- Witness for `undefinedCodeStats_spec`: the sample record's code 211
with an empty taxonomy is covered by a statistics entry. -/
theorem undefinedCodeStats_spec_witness :
    ∃ s ∈ undefinedCodeStats [sampleItem] [], s.subworkCode = sampleItem.subworkCode :=
  (undefinedCodeStats_spec [sampleItem] []).2.2 sampleItem (by decide) (by decide) (by decide)

unseal Rat.mul Rat.inv Rat.add Rat.sub Rat.ofScientific in
/-- C5 counterexample: a record whose subworkCode is the empty string has
no taxonomy entry (the taxonomy is empty), yet the undefined-code
statistics are empty — the source's truthiness test drops it, so not
every record without a taxonomy entry is reported. -/
theorem undefinedCodeStats_misses_empty_code :
    (∃ i ∈ emptyCodeBatch, ∀ wc ∈ ([] : List WorkCode), wc.subworkCode ≠ i.subworkCode) ∧
    undefinedCodeStats emptyCodeBatch [] = [] := by
  decide

theorem specGroupStep_keys (accP : List ((String × String) × HourGroup)) (item : WorkItem) :
    (specGroupStep accP item).map Prod.fst = accP.map Prod.fst ∨
    (specGroupStep accP item).map Prod.fst =
      accP.map Prod.fst ++ [(item.projectCode, item.subworkCode)] := by
  unfold specGroupStep
  by_cases h : (item.projectCode, item.subworkCode) ∈ accP.map Prod.fst
  · left
    rw [if_pos h, List.map_map]
    apply List.map_congr_left
    intro a _
    by_cases hc : a.1 = (item.projectCode, item.subworkCode) <;> simp [hc]
  · right
    rw [if_neg h]
    simp

theorem groupStep_renderKey (accP : List ((String × String) × HourGroup)) (item : WorkItem)
    (hk : ∀ p ∈ accP.map Prod.fst, p.1 ++ "_" ++ p.2 = groupKey item →
      p = (item.projectCode, item.subworkCode)) :
    groupStep (accP.map renderKey) item = (specGroupStep accP item).map renderKey := by
  unfold groupStep specGroupStep
  have hmem : (groupKey item ∈ (accP.map renderKey).map Prod.fst) ↔
      ((item.projectCode, item.subworkCode) ∈ accP.map Prod.fst) := by
    rw [List.map_map]
    constructor
    · intro h
      rcases List.mem_map.mp h with ⟨e, he, heq⟩
      have he1 : e.1 ∈ accP.map Prod.fst := List.mem_map.mpr ⟨e, he, rfl⟩
      have hpe := hk e.1 he1 heq
      rw [← hpe]
      exact he1
    · intro h
      rcases List.mem_map.mp h with ⟨e, he, heq⟩
      refine List.mem_map.mpr ⟨e, he, ?_⟩
      show e.1.1 ++ "_" ++ e.1.2 = groupKey item
      rw [heq]
      rfl
  by_cases h : (item.projectCode, item.subworkCode) ∈ accP.map Prod.fst
  · rw [if_pos (hmem.mpr h), if_pos h, List.map_map, List.map_map]
    apply List.map_congr_left
    intro e he
    by_cases hc : e.1 = (item.projectCode, item.subworkCode)
    · have hkey : e.1.1 ++ "_" ++ e.1.2 = groupKey item := by
        rw [hc]
        rfl
      simp [renderKey, groupKey, hkey, hc]
    · have he1 : e.1 ∈ accP.map Prod.fst := List.mem_map.mpr ⟨e, he, rfl⟩
      have hne : ¬ (e.1.1 ++ "_" ++ e.1.2 = groupKey item) := by
        intro hcon
        exact hc (hk e.1 he1 hcon)
      simp [renderKey, hne, hc]
  · rw [if_neg (fun hcon => h (hmem.mp hcon)), if_neg h, List.map_append]
    simp [renderKey, groupKey]

theorem foldl_groupStep_renderKey :
    ∀ (items : List WorkItem) (accP : List ((String × String) × HourGroup)),
    (∀ a ∈ items, ∀ b ∈ items, groupKey a = groupKey b →
      a.projectCode = b.projectCode ∧ a.subworkCode = b.subworkCode) →
    (∀ p ∈ accP.map Prod.fst, ∀ a ∈ items, p.1 ++ "_" ++ p.2 = groupKey a →
      p = (a.projectCode, a.subworkCode)) →
    items.foldl groupStep (accP.map renderKey) =
      (items.foldl specGroupStep accP).map renderKey := by
  intro items
  induction items with
  | nil => intro accP _ _; rfl
  | cons x xs ih =>
    intro accP hinj hacc
    rw [List.foldl_cons, List.foldl_cons,
        groupStep_renderKey accP x (fun p hp => hacc p hp x (List.mem_cons_self _ _))]
    apply ih
    · intro a ha b hb hk
      exact hinj a (List.mem_cons_of_mem _ ha) b (List.mem_cons_of_mem _ hb) hk
    · intro p hp a ha hkey
      rcases specGroupStep_keys accP x with hkeys | hkeys
      · rw [hkeys] at hp
        exact hacc p hp a (List.mem_cons_of_mem _ ha) hkey
      · rw [hkeys] at hp
        rcases List.mem_append.mp hp with hp1 | hp1
        · exact hacc p hp1 a (List.mem_cons_of_mem _ ha) hkey
        · have hpx : p = (x.projectCode, x.subworkCode) := List.mem_singleton.mp hp1
          subst hpx
          have hres := hinj x (List.mem_cons_self _ _) a (List.mem_cons_of_mem _ ha) hkey
          simp [hres.1, hres.2]

unseal Rat.mul Rat.inv Rat.add Rat.sub Rat.ofScientific in
/-- C4 (amended): by-category aggregation groups by the underscore-joined
composite key string; whenever that join is injective on the batch's
(projectCode, subworkCode) pairs (in particular whenever codes contain no
underscore), this coincides exactly with the claim's pair grouping
followed by display-name resolution and merging by resolved name.  On the
concrete example — records with totalHours = inHours + outHours, hours
8.0/1.5 and 7.5/0.5, two codes resolving to the one category name 組立 —
the aggregate is regular 15.5, overtime 2.0, total 17.5.  (With colliding
joined keys the two computations differ; see the counterexample.) -/
theorem aggregateByWorkType_matches_pair_grouping (workItems : List WorkItem)
    (workCodes : List WorkCode)
    (hinj : ∀ a ∈ workItems, ∀ b ∈ workItems, groupKey a = groupKey b →
      a.projectCode = b.projectCode ∧ a.subworkCode = b.subworkCode) :
    aggregateByWorkType workItems workCodes = specAggregateByWorkType workItems workCodes ∧
    (∀ i ∈ aggExampleItems, i.totalHours = i.inHours + i.outHours) ∧
    aggregateByWorkType aggExampleItems aggExampleCodes = [⟨"組立", 15.5, 2, 17.5⟩] := by
  refine ⟨?_, by decide, by decide⟩
  unfold aggregateByWorkType specAggregateByWorkType
  by_cases hlen : workItems.length = 0
  · simp [hlen]
  · simp only [hlen, if_false, ite_false]
    have hfold := foldl_groupStep_renderKey workItems [] hinj (by simp)
    rw [show ([] : List (String × HourGroup)) =
        (([] : List ((String × String) × HourGroup)).map renderKey) from rfl,
      hfold, List.map_map,
      show (Prod.snd ∘ renderKey) =
        (Prod.snd : (String × String) × HourGroup → HourGroup) from rfl]

unseal Rat.mul Rat.inv Rat.add Rat.sub Rat.ofScientific in
/-- Witness for `aggregateByWorkType_matches_pair_grouping` at the
concrete example batch, whose joined keys are injective. -/
theorem aggregateByWorkType_matches_pair_grouping_witness :
    aggregateByWorkType aggExampleItems aggExampleCodes =
      specAggregateByWorkType aggExampleItems aggExampleCodes :=
  (aggregateByWorkType_matches_pair_grouping aggExampleItems aggExampleCodes (by decide)).1

unseal Rat.mul Rat.inv Rat.add Rat.sub Rat.ofScientific in
/-- C4 counterexample: with distinct pairs (`A_B`, `C`) and (`A`, `B_C`)
the joined keys coincide, the two records are merged into one group whose
display name comes from the first record's codes, and the result differs
from grouping by the (projectCode, subworkCode) pair as the claim
describes it. -/
theorem aggregateByWorkType_key_collision :
    aggregateByWorkType aggCollisionItems aggCollisionCodes ≠
      specAggregateByWorkType aggCollisionItems aggCollisionCodes ∧
    (aggCollisionItems.map (fun i => (i.projectCode, i.subworkCode))).Nodup := by
  decide

theorem digitChar_isDigit (n : ℕ) : (digitChar n).isDigit = true := by
  have h : n % 10 < 10 := Nat.mod_lt n (by norm_num)
  unfold digitChar
  revert h
  generalize n % 10 = r
  intro h
  interval_cases r <;> decide

theorem digitChar_not_ws (n : ℕ) : jsIsWs (digitChar n) = false := by
  have h : n % 10 < 10 := Nat.mod_lt n (by norm_num)
  unfold digitChar jsIsWs
  revert h
  generalize n % 10 = r
  intro h
  interval_cases r <;> decide

theorem digitChar_toNat (n : ℕ) : (digitChar n).toNat = 48 + n % 10 := by
  have h : n % 10 < 10 := Nat.mod_lt n (by norm_num)
  unfold digitChar
  revert h
  generalize n % 10 = r
  intro h
  interval_cases r <;> decide

theorem padNat4_eq (n : ℕ) : padNat 4 n =
    [digitChar (n / 1000), digitChar (n / 100), digitChar (n / 10), digitChar n] := by
  simp [padNat, List.range_succ]

theorem padNat2_eq (n : ℕ) : padNat 2 n = [digitChar (n / 10), digitChar n] := by
  simp [padNat, List.range_succ]

theorem isoYMD_data (y m d : ℤ) : (isoYMD y m d).data =
    [digitChar (y.toNat / 1000), digitChar (y.toNat / 100), digitChar (y.toNat / 10),
     digitChar y.toNat, '-', digitChar (m.toNat / 10), digitChar m.toNat, '-',
     digitChar (d.toNat / 10), digitChar d.toNat] := by
  unfold isoYMD
  rw [padNat4_eq, padNat2_eq, padNat2_eq]
  rfl

theorem digitsVal4 (n : ℕ) (h : n ≤ 9999) :
    digitsVal [digitChar (n / 1000), digitChar (n / 100), digitChar (n / 10), digitChar n]
      = n := by
  simp [digitsVal, digitChar_toNat]
  omega

theorem digitsVal2 (n : ℕ) (h : n ≤ 99) :
    digitsVal [digitChar (n / 10), digitChar n] = n := by
  simp [digitsVal, digitChar_toNat]
  omega

theorem dayFromYear_succ (y : ℤ) :
    dayFromYear (y + 1) = dayFromYear y + (if isLeapYear y then 366 else 365) := by
  unfold dayFromYear isLeapYear
  by_cases h : (y % 4 = 0 ∧ y % 100 ≠ 0) ∨ y % 400 = 0 <;> simp [h] <;> omega

theorem dayFromYear_mono {a b : ℤ} (h : a ≤ b) : dayFromYear a ≤ dayFromYear b := by
  unfold dayFromYear
  omega

theorem dayFromCivil_bracket (y m d : ℤ) (hm1 : 1 ≤ m) (hm2 : m ≤ 12)
    (hd1 : 1 ≤ d) (hd2 : d ≤ daysInMonth y m) :
    dayFromYear y ≤ dayFromCivil y m d ∧ dayFromCivil y m d < dayFromYear (y + 1) := by
  have hsucc := dayFromYear_succ y
  unfold dayFromCivil
  by_cases hL : isLeapYear y <;>
    simp only [hL, if_true, if_false, ite_true, ite_false] at hsucc ⊢ <;>
    unfold daysInMonth at hd2 <;>
    interval_cases m <;>
    simp_all [monthOffset] <;>
    omega

theorem yearSearch_bracket : ∀ (fuel : ℕ) (dy lo hi : ℤ), lo < hi →
    hi - lo ≤ 2 ^ fuel → dayFromYear lo ≤ dy → dy < dayFromYear hi →
    dayFromYear (yearSearch dy lo hi fuel) ≤ dy ∧
      dy < dayFromYear (yearSearch dy lo hi fuel + 1) := by
  intro fuel
  induction fuel with
  | zero =>
    intro dy lo hi h1 h2 h3 h4
    have hhi : hi = lo + 1 := by
      have : (2:ℤ) ^ 0 = 1 := by norm_num
      omega
    subst hhi
    exact ⟨h3, h4⟩
  | succ n ih =>
    intro dy lo hi h1 h2 h3 h4
    by_cases hd : hi - lo ≤ 1
    · have hhi : hi = lo + 1 := by omega
      subst hhi
      simp only [yearSearch, if_pos (show (lo + 1) - lo ≤ 1 by omega)]
      exact ⟨h3, h4⟩
    · have hpow : (2:ℤ) ^ (n + 1) = 2 * 2 ^ n := by ring
      have hmidlo : lo < (lo + hi) / 2 := by omega
      have hmidhi : (lo + hi) / 2 < hi := by omega
      by_cases hcmp : dayFromYear ((lo + hi) / 2) ≤ dy
      · simp only [yearSearch, if_neg hd, hcmp, if_pos, ite_true]
        exact ih dy ((lo + hi) / 2) hi hmidhi (by omega) hcmp h4
      · simp only [yearSearch, if_neg hd, hcmp, if_neg, ite_false]
        exact ih dy lo ((lo + hi) / 2) hmidlo (by omega) h3 (by omega)

theorem yearFromDay_eq (dy Y : ℤ) (hY1 : -1000000 ≤ Y) (hY2 : Y < 1000001)
    (h1 : dayFromYear Y ≤ dy) (h2 : dy < dayFromYear (Y + 1)) : yearFromDay dy = Y := by
  unfold yearFromDay
  have hbr := yearSearch_bracket 64 dy (-1000000) 1000001 (by norm_num) (by norm_num)
    (le_trans (dayFromYear_mono hY1) h1)
    (lt_of_lt_of_le h2 (dayFromYear_mono (by omega)))
  rcases hbr with ⟨hb1, hb2⟩
  by_contra hne
  rcases lt_or_gt_of_ne hne with hlt | hgt
  · have hmono := dayFromYear_mono (show yearSearch dy (-1000000) 1000001 64 + 1 ≤ Y by omega)
    omega
  · have hmono := dayFromYear_mono (show Y + 1 ≤ yearSearch dy (-1000000) 1000001 64 by omega)
    omega

set_option maxHeartbeats 1600000 in
theorem monthDay_recover (L m d : ℤ) (hL : L = 0 ∨ L = 1) (hm1 : 1 ≤ m) (hm2 : m ≤ 12)
    (hd1 : 1 ≤ d)
    (hd2 : d ≤ (if m = 2 then 28 + L
      else if m = 4 ∨ m = 6 ∨ m = 9 ∨ m = 11 then 30 else 31)) :
    monthDayFromDayWithinYear L (monthOffset L m + d - 1) = (m, d) := by
  rcases hL with rfl | rfl <;>
    interval_cases m <;>
    norm_num [monthOffset] at hd2 ⊢ <;>
    rw [monthDayFromDayWithinYear] <;>
    (repeat rw [if_neg (by omega)]) <;>
    (try rw [if_pos (by omega)]) <;>
    rw [Prod.mk.injEq] <;>
    exact ⟨rfl, by omega⟩

theorem daysInMonth_eq (y m : ℤ) : daysInMonth y m =
    (if m = 2 then 28 + (if isLeapYear y then (1:ℤ) else 0)
     else if m = 4 ∨ m = 6 ∨ m = 9 ∨ m = 11 then 30 else 31) := by
  unfold daysInMonth
  by_cases hL : isLeapYear y <;> simp [hL]

theorem civilFromDay_dayFromCivil (y m d : ℤ) (hy1 : 0 ≤ y) (hy2 : y ≤ 9999)
    (hm1 : 1 ≤ m) (hm2 : m ≤ 12) (hd1 : 1 ≤ d) (hd2 : d ≤ daysInMonth y m) :
    civilFromDay (dayFromCivil y m d) = (y, m, d) := by
  have hbr := dayFromCivil_bracket y m d hm1 hm2 hd1 hd2
  have hyeq := yearFromDay_eq (dayFromCivil y m d) y (by omega) (by omega) hbr.1 hbr.2
  have hw : dayFromCivil y m d - dayFromYear y =
      monthOffset (if isLeapYear y then 1 else 0) m + d - 1 := by
    unfold dayFromCivil
    ring
  have hrec := monthDay_recover (if isLeapYear y then 1 else 0) m d
    (by by_cases hL : isLeapYear y <;> simp [hL]) hm1 hm2 hd1
    (by rw [daysInMonth_eq] at hd2; exact hd2)
  simp only [civilFromDay, hyeq]
  rw [hw, hrec]

theorem toISODateString_dayFromCivil (y m d : ℤ) (hy1 : 0 ≤ y) (hy2 : y ≤ 9999)
    (hm1 : 1 ≤ m) (hm2 : m ≤ 12) (hd1 : 1 ≤ d) (hd2 : d ≤ daysInMonth y m) :
    toISODateString (86400000 * dayFromCivil y m d) = isoYMD y m d := by
  simp only [toISODateString,
    Int.mul_ediv_cancel_left (dayFromCivil y m d) (show (86400000:ℤ) ≠ 0 by norm_num),
    civilFromDay_dayFromCivil y m d hy1 hy2 hm1 hm2 hd1 hd2]
  rw [if_pos ⟨hy1, hy2⟩]

theorem dropWhile_eq_self_of_all (l : List Char) (h : ∀ c ∈ l, jsIsWs c = false) :
    l.dropWhile jsIsWs = l := by
  cases l with
  | nil => rfl
  | cons c cs =>
    rw [List.dropWhile_cons, h c (List.mem_cons_self _ _)]
    simp

theorem jsTrim_of_all_nonws (s : String) (h : ∀ c ∈ s.data, jsIsWs c = false) :
    jsTrim s = s := by
  unfold jsTrim
  rw [show s.toList = s.data from rfl,
    dropWhile_eq_self_of_all s.data h,
    dropWhile_eq_self_of_all s.data.reverse (fun c hc => h c (List.mem_reverse.mp hc)),
    List.reverse_reverse]

theorem isoYMD_all_nonws (y m d : ℤ) : ∀ c ∈ (isoYMD y m d).data, jsIsWs c = false := by
  rw [isoYMD_data]
  intro c hc
  simp only [List.mem_cons, List.not_mem_nil, or_false] at hc
  rcases hc with rfl|rfl|rfl|rfl|rfl|rfl|rfl|rfl|rfl|rfl
  all_goals first | exact digitChar_not_ws _ | decide

theorem jsTrim_isoYMD (y m d : ℤ) : jsTrim (isoYMD y m d) = isoYMD y m d :=
  jsTrim_of_all_nonws _ (isoYMD_all_nonws y m d)

theorem isoYMD_ne_empty (y m d : ℤ) : isoYMD y m d ≠ "" := by
  intro hcon
  have hdc := congrArg String.data hcon
  rw [isoYMD_data] at hdc
  simp at hdc

theorem serialShape_isoYMD (y m d : ℤ) : serialShape (isoYMD y m d).data = false := by
  rw [isoYMD_data]
  simp +decide [serialShape, List.takeWhile_cons, digitChar_isDigit, List.drop]

theorem jsParseDateString_isoYMD (y m d : ℤ) (hy1 : 0 ≤ y) (hy2 : y ≤ 9999)
    (hm1 : 1 ≤ m) (hm2 : m ≤ 12) (hd1 : 1 ≤ d) (hd2 : d ≤ daysInMonth y m) :
    jsParseDateString (isoYMD y m d).data = some (86400000 * dayFromCivil y m d) := by
  have hdim : daysInMonth y m ≤ 31 := by
    unfold daysInMonth
    split_ifs <;> omega
  rw [isoYMD_data]
  simp only [jsParseDateString, List.all_cons, List.all_nil, digitChar_isDigit,
    Bool.and_self, Bool.and_true, Bool.true_and, ite_true, if_true]
  rw [digitsVal4 y.toNat (by omega), digitsVal2 m.toNat (by omega),
    digitsVal2 d.toNat (by omega),
    Int.toNat_of_nonneg hy1, Int.toNat_of_nonneg (show (0:ℤ) ≤ m by omega),
    Int.toNat_of_nonneg (show (0:ℤ) ≤ d by omega)]
  rw [if_pos ⟨hm1, hm2, hd1, hd2⟩]

unseal Rat.mul Rat.inv Rat.add Rat.sub Rat.ofScientific in
/-- C8 (amended): date coercion is idempotent on every already-normalized
`YYYY-MM-DD` string that denotes a VALID calendar date (month 01-12, day
within the month, year up to 9999): `parseDate` maps it to itself.  The
8-digit branch can emit strings of the same shape that are not valid
dates (e.g. `9999-99-99`), and on those `parseDate` returns `null`
instead; see the counterexample. -/
theorem parseDate_idempotent_on_valid_dates (y m d : ℤ) (hy1 : 0 ≤ y) (hy2 : y ≤ 9999)
    (hm1 : 1 ≤ m) (hm2 : m ≤ 12) (hd1 : 1 ≤ d) (hd2 : d ≤ daysInMonth y m) :
    parseDate (.str (isoYMD y m d)) = .ok (some (isoYMD y m d)) := by
  have hlen : ¬ ((isoYMD y m d).data.length = 8 ∧
      (isoYMD y m d).data.all Char.isDigit = true) := by
    rw [isoYMD_data]
    simp
  unfold parseDate
  simp only [jsToString, jsTruthy]
  rw [if_neg (by simp [isoYMD_ne_empty y m d]), jsTrim_isoYMD]
  rw [show (isoYMD y m d).toList = (isoYMD y m d).data from rfl]
  rw [if_neg hlen, if_neg (by simp [serialShape_isoYMD y m d]),
    jsParseDateString_isoYMD y m d hy1 hy2 hm1 hm2 hd1 hd2]
  show Except.ok (some (toISODateString (86400000 * dayFromCivil y m d))) =
    Except.ok (some (isoYMD y m d))
  rw [toISODateString_dayFromCivil y m d hy1 hy2 hm1 hm2 hd1 hd2]

unseal Rat.mul Rat.inv Rat.add Rat.sub Rat.ofScientific in
/-- Witness for `parseDate_idempotent_on_valid_dates` at 2025-01-15. -/
theorem parseDate_idempotent_witness :
    isoYMD 2025 1 15 = "2025-01-15" ∧
    parseDate (.str (isoYMD 2025 1 15)) = .ok (some (isoYMD 2025 1 15)) :=
  ⟨by decide,
   parseDate_idempotent_on_valid_dates 2025 1 15 (by decide) (by decide) (by decide)
     (by decide) (by decide) (by decide)⟩
